import Mathlib

/-!
Formal model of the data-acquisition-and-aggregation pipeline of the
P-C-CPI repository.

The embedded code:
- 03_build_index.py: validate_filename, validate_path_within_directory,
  load_series_data, panel construction, base-period normalization and
  build_severity_index;
- 01_fetch_bls.py: validate_bls_response and fetch_series (response
  processing, record construction and the retry loop).

Conventions of the embedding:
- filesystem paths are lists of segments; the textual form of a resolved
  absolute path is a list of characters;
- JSON payloads are an inductive Json type; operations that can raise a
  Python exception caught by the fetch code (KeyError, ValueError,
  TypeError) return Except Unit;
- pandas not-a-number cells are modelled as Option-valued cells: none is
  NaN, and addition and scalar multiplication propagate none exactly as
  pandas propagates NaN;
- floating point values are modelled as rationals; dates of fetched
  records are encoded as year * 100 + month.
-/

namespace PCCpi

/-! Section 1: path containment check of 03_build_index.py. -/

/-- Lexical resolution of an absolute path given as a list of segments,
modelling pathlib resolution of relative segments: a dot segment is
dropped, a dot-dot segment removes the previous segment (at the root it
is a no-op), any other segment is appended.  Symbolic links and the
current working directory are outside the model. -/
def resolveSegs (segs : List String) : List String :=
  segs.foldl
    (fun acc s =>
      if s = "." then acc
      else if s = ".." then acc.dropLast
      else acc ++ [s]) []

/-- Textual form of a resolved absolute path, as produced by str() on a
POSIX path: every segment is preceded by a slash. -/
def pathChars : List String → List Char
  | [] => []
  | s :: rest => '/' :: (s.data ++ pathChars rest)

/-- Embedding of validate_path_within_directory (03_build_index.py,
lines 34 to 54): both paths are resolved and the check is a textual
startswith test of the resolved directory against the resolved file
path. -/
def validate_path_within_directory (filepath allowed_dir : List String) : Bool :=
  (pathChars (resolveSegs allowed_dir)).isPrefixOf (pathChars (resolveSegs filepath))

/-- Containment of a resolved path in a resolved directory, as the spec
words it: the directory segments are a prefix of the path segments. -/
def withinDir (filepath allowed_dir : List String) : Prop :=
  resolveSegs allowed_dir <+: resolveSegs filepath

/-! Section 2: filename validation of 03_build_index.py. -/

/-- Characters admitted by the character class of the filename pattern:
ASCII letters, ASCII digits, underscore and hyphen. -/
def isWordChar (c : Char) : Bool := c.isAlpha || c.isDigit || c == '_' || c == '-'

/-- Match of the body of the regular expression of 03_build_index.py
line 15 against a whole string: one or more word characters followed by
the literal dot-csv suffix. -/
def csvNameCore (s : List Char) : Bool :=
  if s.length < 5 then false
  else (s.drop (s.length - 4) == ['.', 'c', 's', 'v'])
    && (s.take (s.length - 4)).all isWordChar

/-- Embedding of validate_filename (03_build_index.py, lines 18 to 31).
The Python dollar anchor also matches just before a newline that ends
the string, so a single trailing newline is tolerated by re.match. -/
def validate_filename (s : List Char) : Bool :=
  csvNameCore s || (s.getLast? == some '\n' && csvNameCore s.dropLast)

/-! Section 3: the BLS fetch of 01_fetch_bls.py.  JSON payloads are an
inductive type; partial Python operations return Except Unit, the error
standing for any of the exceptions the fetch code catches identically
(KeyError, ValueError, TypeError). -/

inductive Json where
  | null
  | bool (b : Bool)
  | num (q : ℚ)
  | str (s : String)
  | arr (elems : List Json)
  | obj (fields : List (String × Json))

/-- Python equality of a JSON value against a string literal: true only
when the value is that string; comparison never raises. -/
def Json.eqStr : Json → String → Bool
  | .str s, k => s == k
  | _, _ => false

/-- True when the JSON value is an object, modelling the isinstance
check against dict. -/
def Json.isObjB : Json → Bool
  | .obj _ => true
  | _ => false

/-- Substring test on character lists, modelling the Python membership
test of one string in another. -/
def listSubCheck (needle : List Char) : List Char → Bool
  | [] => needle.isEmpty
  | c :: t => needle.isPrefixOf (c :: t) || listSubCheck needle t

/-- Python membership test of a string key in a JSON value: key lookup
for objects, element equality for arrays, substring test for strings;
a TypeError for the remaining shapes. -/
def pyContains (j : Json) (k : String) : Except Unit Bool :=
  match j with
  | .obj fields => .ok (fields.any (fun f => f.1 == k))
  | .arr elems => .ok (elems.any (fun e => e.eqStr k))
  | .str s => .ok (listSubCheck k.data s.data)
  | _ => .error ()

/-- Python string subscript of a JSON value: association lookup for
objects (KeyError when absent), TypeError for every other shape. -/
def pyGetItem (j : Json) (k : String) : Except Unit Json :=
  match j with
  | .obj fields =>
    match fields.find? (fun f => f.1 == k) with
    | some f => .ok f.2
    | none => .error ()
  | _ => .error ()

/-- Python len of a JSON value; TypeError for unsized shapes. -/
def pyLen (j : Json) : Except Unit ℕ :=
  match j with
  | .arr elems => .ok elems.length
  | .str s => .ok s.length
  | .obj fields => .ok fields.length
  | _ => .error ()

/-- Python subscript with integer zero: first array element or first
character of a string; a KeyError for objects and a TypeError for the
rest.  The fetch code indexes only after checking a nonzero length, so
the out-of-range arm is unreachable there. -/
def pyIndexZero (j : Json) : Except Unit Json :=
  match j with
  | .arr elems =>
    match elems.head? with
    | some e => .ok e
    | none => .error ()
  | .str s =>
    match s.data.head? with
    | some c => .ok (.str (String.mk [c]))
    | none => .error ()
  | _ => .error ()

/-- Embedding of validate_bls_response (01_fetch_bls.py, lines 47 to
86): the payload must be an object, carry a status field equal to the
success string, carry a Results field whose series member is a nonempty
collection whose first entry carries a data member.  Checks five to
seven can raise a TypeError or KeyError when Results has an unexpected
shape; the caller catches those identically to a validation failure. -/
def validate_bls_response (j : Json) : Except Unit Bool := do
  if !j.isObjB then return false
  let hasStatus ← pyContains j "status"
  if !hasStatus then return false
  let status ← pyGetItem j "status"
  if !(status.eqStr "REQUEST_SUCCEEDED") then return false
  let hasResults ← pyContains j "Results"
  if !hasResults then return false
  let results ← pyGetItem j "Results"
  let hasSeries ← pyContains results "series"
  if !hasSeries then return false
  let series ← pyGetItem results "series"
  let n ← pyLen series
  if n = 0 then return false
  let first ← pyIndexZero series
  let hasData ← pyContains first "data"
  if !hasData then return false
  return true

/-- Numeric value of a digit character. -/
def digitVal (c : Char) : ℕ := c.toNat - '0'.toNat

/-- Parse of a nonempty all-digit character list into a natural
number. -/
def parseNatDigits (s : List Char) : Except Unit ℕ :=
  if s.isEmpty then .error ()
  else if s.all Char.isDigit then
    .ok (s.foldl (fun a c => a * 10 + digitVal c) 0)
  else .error ()

/-- Month part of the observation period: the code slices off the first
character of the period string and interpolates the rest into a date
string handed to the datetime parser, which accepts months one through
twelve; anything else raises a ValueError caught by the fetch code. -/
def parseMonth (s : List Char) : Except Unit ℕ := do
  let n ← parseNatDigits s
  if 1 ≤ n ∧ n ≤ 12 then pure n else .error ()

/-- Parse of a decimal literal, modelling the subset of Python float
syntax the data feed produces: optional minus sign, digits, optional
dot and fraction digits, at least one digit overall.  Exponents, inf
and nan literals and surrounding whitespace are outside the model. -/
def parseDecimal (s : List Char) : Except Unit ℚ :=
  match s with
  | '-' :: rest => do
    let q ← parseUnsignedDecimal rest
    pure (-q)
  | _ => parseUnsignedDecimal s
where
  parseUnsignedDecimal (t : List Char) : Except Unit ℚ :=
    let intPart := t.takeWhile Char.isDigit
    let rest := t.dropWhile Char.isDigit
    match rest with
    | [] =>
      if intPart.isEmpty then .error ()
      else .ok ((intPart.foldl (fun a c => a * 10 + digitVal c) 0 : ℕ) : ℚ)
    | '.' :: frac =>
      if frac.all Char.isDigit ∧ ¬ (intPart.isEmpty ∧ frac.isEmpty) then
        .ok (((intPart.foldl (fun a c => a * 10 + digitVal c) 0 : ℕ) : ℚ)
          + ((frac.foldl (fun a c => a * 10 + digitVal c) 0 : ℕ) : ℚ)
            / ((10 : ℚ) ^ frac.length))
      else .error ()
    | _ => .error ()

/-- Python float applied to a JSON value: strings are parsed, numbers
pass through, booleans become zero or one, anything else raises a
TypeError. -/
def pyFloat (v : Json) : Except Unit ℚ :=
  match v with
  | .str s => parseDecimal s.data
  | .num q => .ok q
  | .bool b => .ok (if b then 1 else 0)
  | _ => .error ()

/-- True when the value field of an item is the missing-observation
sentinel, a dash or the empty string. -/
def isSentinelItem (item : Json) : Bool :=
  match pyGetItem item "value" with
  | .ok v => v.eqStr "-" || v.eqStr ""
  | .error _ => false

/-- Encoding of a monthly date as a single natural number ordered
chronologically. -/
def dateCode (y m : ℕ) : ℕ := y * 100 + m

/-- Construction of one record from a non-sentinel item (01_fetch_bls.py,
lines 124 to 129): the year and period fields are read, the period is
sliced after its first character, the date string is checked by the
datetime conversion, and the value string is parsed as a float.  Year
and period values that are not strings, which the feed never produces,
are modelled as parse failures. -/
def itemRecord (item : Json) : Except Unit (ℕ × ℚ) := do
  let y ← pyGetItem item "year"
  let p ← pyGetItem item "period"
  match y, p with
  | .str ys, .str ps => do
    let yn ← parseNatDigits ys.data
    let mn ← parseMonth (ps.data.drop 1)
    let vj ← pyGetItem item "value"
    let q ← pyFloat vj
    pure (dateCode yn mn, q)
  | _, _ => .error ()

/-- Record construction loop of fetch_series (01_fetch_bls.py, lines 118
to 129): for each item the value field is read; a sentinel value is
skipped, though the skip log line still reads the year and period
fields, whose absence therefore raises a KeyError; other items
contribute one record each. -/
def recsOfItems : List Json → Except Unit (List (ℕ × ℚ))
  | [] => .ok []
  | item :: rest => do
    let v ← pyGetItem item "value"
    if v.eqStr "-" || v.eqStr "" then do
      let _ ← pyGetItem item "year"
      let _ ← pyGetItem item "period"
      recsOfItems rest
    else do
      let r ← itemRecord item
      let rest2 ← recsOfItems rest
      pure (r :: rest2)

/-- Extraction of the data array of the first series of a validated
payload, as the loop header of fetch_series addresses it.  Iterating a
non-array data member either raises on its first item or produces no
record, so it is modelled as a failure. -/
def dataItems (j : Json) : Except Unit (List Json) := do
  let results ← pyGetItem j "Results"
  let series ← pyGetItem results "series"
  let first ← pyIndexZero series
  let data ← pyGetItem first "data"
  match data with
  | .arr items => pure items
  | _ => .error ()

/-- Records of a validated payload. -/
def seriesRecords (j : Json) : Except Unit (List (ℕ × ℚ)) := do
  let items ← dataItems j
  recsOfItems items

/-- Ascending sort of records by date, modelling sort_values on the
date column.  The pandas sort is unstable, so the order among equal
dates is unspecified there; the model picks the stable order. -/
def sortRecs (l : List (ℕ × ℚ)) : List (ℕ × ℚ) :=
  l.mergeSort (fun a b => decide (a.1 ≤ b.1))

/-- Processing of one successfully transported and decoded payload
inside fetch_series: a failed validation returns the empty series, any
caught exception during record construction returns the empty series,
an empty record list raises a KeyError at the date conversion that is
caught the same way, and otherwise the sorted records are returned. -/
def afterJson (j : Json) : List (ℕ × ℚ) :=
  match validate_bls_response j with
  | .error _ => []
  | .ok false => []
  | .ok true =>
    match seriesRecords j with
    | .error _ => []
    | .ok recs => if recs.isEmpty then [] else sortRecs recs

/-- Outcome of one network attempt as the fetch code distinguishes
them: a timeout, a connection error, an HTTP status error, or a decoded
payload. -/
inductive Attempt where
  | timeout
  | connError
  | httpError
  | ok (payload : Json)

/-- Retry bound of 01_fetch_bls.py line 23. -/
def MAX_RETRIES : ℕ := 3

/-- Inter-attempt delay in seconds of 01_fetch_bls.py line 24. -/
def RETRY_DELAY : ℕ := 5

/-- Observable outcome of fetch_series: the returned series, the number
of attempts executed, and the number of sleep calls of RETRY_DELAY
seconds each. -/
structure FetchResult where
  series : List (ℕ × ℚ)
  attempts : ℕ
  sleeps : ℕ

/-- Retry loop of fetch_series (01_fetch_bls.py, lines 108 to 153) over
the list of outcomes the remaining attempts would see: a timeout or
connection error moves to the next attempt, sleeping first unless this
was the last attempt; an HTTP error or a decoded payload ends the loop
at once; an exhausted list means every attempt failed and the empty
series is returned. -/
def fetchList : List Attempt → FetchResult
  | [] => ⟨[], 0, 0⟩
  | a :: rest =>
    match a with
    | .httpError => ⟨[], 1, 0⟩
    | .ok j => ⟨afterJson j, 1, 0⟩
    | .timeout =>
      let r := fetchList rest
      ⟨r.series, r.attempts + 1, r.sleeps + (if rest.isEmpty then 0 else 1)⟩
    | .connError =>
      let r := fetchList rest
      ⟨r.series, r.attempts + 1, r.sleeps + (if rest.isEmpty then 0 else 1)⟩

/-- Embedding of fetch_series: the environment maps each attempt number
to its network outcome; the loop runs attempts one through
MAX_RETRIES.  The function is total: no exception escapes it. -/
def fetch_series (env : ℕ → Attempt) : FetchResult :=
  fetchList ((List.range MAX_RETRIES).map (fun i => env (i + 1)))

/-- A transient outcome, the only kind the code retries. -/
def retryable (a : Attempt) : Prop := a = .timeout ∨ a = .connError

/-- Fixture: a data array whose every value is the missing-observation
sentinel. -/
def sentinelItems : List Json :=
  [Json.obj [("value", Json.str "-"), ("year", Json.str "2020"), ("period", Json.str "M01")],
   Json.obj [("value", Json.str ""), ("year", Json.str "2020"), ("period", Json.str "M02")]]

/-- Fixture: a well-formed successful payload carrying only sentinel
values. -/
def sentinelPayload : Json :=
  Json.obj [("status", Json.str "REQUEST_SUCCEEDED"),
    ("Results", Json.obj
      [("series", Json.arr [Json.obj [("data", Json.arr sentinelItems)]])])]

/-! Section 4: panel construction, base-period normalization and the
weighted severity index of 03_build_index.py.  A missing observation,
a pandas not-a-number, is the none cell; arithmetic on cells propagates
none exactly as pandas propagates not-a-number, also under a zero
factor. -/

/-- Addition of possibly-missing cells. -/
def oadd : Option ℚ → Option ℚ → Option ℚ
  | some a, some b => some (a + b)
  | _, _ => none

/-- Scalar multiplication of a possibly-missing cell. -/
def osmul (w : ℚ) : Option ℚ → Option ℚ
  | some v => some (w * v)
  | none => none

/-- A stored time series: records of date and value. -/
def TimeSeries : Type := List (ℕ × ℚ)

/-- Observation of a series at a date, none when absent. -/
def tsLookup (ts : TimeSeries) (d : ℕ) : Option ℚ :=
  ((ts : List (ℕ × ℚ)).find? (fun r => r.1 == d)).map Prod.snd

/-- A date-aligned panel: the row index and the named columns, each a
total map from dates to possibly-missing cells. -/
structure Panel where
  dates : List ℕ
  cols : List (String × (ℕ → Option ℚ))

/-- Column names of a panel. -/
def Panel.colNames (p : Panel) : List String := p.cols.map Prod.fst

/-- Cell of a named column at a date; a missing column reads as a
missing cell (the index code only reads columns it has checked). -/
def panelCell (p : Panel) (c : String) (d : ℕ) : Option ℚ :=
  match p.cols.find? (fun x => x.1 == c) with
  | some x => x.2 d
  | none => none

/-- Combination of the loaded series into one panel (03_build_index.py
line 164): the row index is the sorted union of all series dates, and
each column reads a series observation when one exists at the date and
a missing cell otherwise. -/
def mkPanel (dfs : List (String × TimeSeries)) : Panel :=
  { dates := ((dfs.map (fun p => (p.2 : List (ℕ × ℚ)).map Prod.fst)).flatten.dedup).mergeSort
      (fun a b => decide (a ≤ b)),
    cols := dfs.map (fun p => (p.1, fun d => tsLookup p.2 d)) }


/-- Normalization to the base date (03_build_index.py lines 166 to
174): every cell is divided by its column cell at the base date and
scaled by one hundred; a missing operand yields a missing cell.  A
zero base, which pandas turns into an infinity, is outside every claim
and is not modelled separately. -/
def normalizePanel (p : Panel) (baseDate : ℕ) : Panel :=
  { dates := p.dates,
    cols := p.cols.map (fun x => (x.1, fun d =>
      match x.2 d, x.2 baseDate with
      | some v, some b => some (v / b * 100)
      | _, _ => none)) }

/-- Result of build_severity_index: the composite, the cumulative
applied weight, the names warned about as absent from the panel, and
whether the final weight-sum warning fired. -/
structure BuildResult where
  severity : ℕ → Option ℚ
  total_weight : ℚ
  missingWarnings : List String
  weightWarning : Bool

/-- Weighted term one weight row contributes at one date. -/
def termOf (p : Panel) (row : String × ℚ) (d : ℕ) : Option ℚ :=
  osmul row.2 (panelCell p row.1 d)

/-- Loop of build_severity_index in accumulator style: the running
composite, cumulative weight and warning list, updated row by row. -/
def buildAux (p : Panel) :
    (ℕ → Option ℚ) → ℚ → List String → List (String × ℚ) →
      ((ℕ → Option ℚ) × ℚ × List String)
  | sev, tw, warn, [] => (sev, tw, warn)
  | sev, tw, warn, row :: rest =>
    if p.colNames.contains row.1 then
      buildAux p (fun d => oadd (sev d) (termOf p row d)) (tw + row.2) warn rest
    else
      buildAux p sev tw (warn ++ [row.1]) rest

/-- Embedding of build_severity_index (03_build_index.py, lines 101 to
129): starting from zero at every date, each weight row whose series is
a panel column accumulates its weighted column into the composite and
its weight into the cumulative weight; a row whose series is absent is
warned about and contributes nothing; at the end a deviation of the
cumulative weight from one by more than one hundredth fires the
weight-sum warning. -/
def build_severity_index (p : Panel) (weights : List (String × ℚ)) : BuildResult :=
  let r := buildAux p (fun _ => some 0) 0 [] weights
  { severity := r.1, total_weight := r.2.1, missingWarnings := r.2.2,
    weightWarning := decide (|r.2.1 - 1| > 1 / 100) }

/-- Loop of load_series_data in accumulator style.  The store maps a
filename to its series when the file loads; none covers the four
per-file failures the code skips identically (file absent, file empty,
column missing, parse error).  The log records each attempted file
read, one entry per read_csv call. -/
def loadAux (dataDir : List String) (store : String → Option TimeSeries) :
    List (String × TimeSeries) → List String → List (String × ℚ) →
      (List (String × TimeSeries) × List String)
  | dfs, log, [] => (dfs, log)
  | dfs, log, row :: rest =>
    if !(validate_filename row.1.data) then loadAux dataDir store dfs log rest
    else if (dfs.map Prod.fst).contains row.1 then loadAux dataDir store dfs log rest
    else if !(validate_path_within_directory (dataDir ++ [row.1]) dataDir) then
      loadAux dataDir store dfs log rest
    else
      match store row.1 with
      | some ts => loadAux dataDir store (dfs ++ [(row.1, ts)]) (log ++ [row.1]) rest
      | none => loadAux dataDir store dfs (log ++ [row.1]) rest

/-- Embedding of load_series_data (03_build_index.py, lines 57 to 98):
iterate the weight rows; skip names failing the filename check, names
already loaded, and paths failing the containment check; otherwise
attempt the read and keep the series when it loads. -/
def load_series_data (dataDir : List String) (weights : List (String × ℚ))
    (store : String → Option TimeSeries) :
    (List (String × TimeSeries)) × List String :=
  loadAux dataDir store [] [] weights

/-- Fixture: two raw series over two dates whose normalization is a
panel with both columns at one hundred on the base date. -/
def cePanelRaw : Panel :=
  { dates := [0, 1],
    cols := [("A.csv", fun d => if d = 0 then some 50 else if d = 1 then some 0 else none),
             ("B.csv", fun d => if d = 0 then some 25 else if d = 1 then some 50 else none)] }

/-- Fixture: the normalized panel of the raw fixture. -/
def cePanel : Panel := normalizePanel cePanelRaw 0

/-- Fixture: a weights table summing to one with a negative entry. -/
def ceWeights : List (String × ℚ) := [("A.csv", 2), ("B.csv", -1)]

/-- Fixture: a single-column panel. -/
def c9Panel : Panel := { dates := [0], cols := [("A.csv", fun _ => some 100)] }

/-- Fixture: a weights table whose second series is absent from the
single-column panel and carries weight zero. -/
def c9Weights : List (String × ℚ) := [("A.csv", 1), ("B.csv", 0)]

/-- Fixture: a weights table whose absent series carries positive
weight. -/
def w9Weights : List (String × ℚ) := [("A.csv", 3 / 4), ("B.csv", 1 / 4)]

/-- Fixture: a balanced two-column panel for the composite witness. -/
def w5Panel : Panel :=
  { dates := [0],
    cols := [("A.csv", fun _ => some 100), ("B.csv", fun _ => some 110)] }

/-- Fixture: equal weights summing to one. -/
def w5Weights : List (String × ℚ) := [("A.csv", 1 / 2), ("B.csv", 1 / 2)]

/-- Fixture: a one-column panel with base value fifty. -/
def w8Panel : Panel := { dates := [0], cols := [("A.csv", fun _ => some 50)] }

/-- Fixture: two loaded series with different date sets. -/
def dfs6 : List (String × TimeSeries) :=
  [("A.csv", ([(0, 10)] : List (ℕ × ℚ))), ("B.csv", ([(0, 5), (1, 7)] : List (ℕ × ℚ)))]

/-- Fixture: equal weights over the two series of the panel fixture. -/
def w6Weights : List (String × ℚ) := [("A.csv", 1 / 2), ("B.csv", 1 / 2)]

/-- Fixture: a store holding exactly one readable file. -/
def dupStore : String → Option TimeSeries :=
  fun n => if n = "A.csv" then some ([(0, (10 : ℚ))] : List (ℕ × ℚ)) else none

/-- Fixture: a weights table naming the same file twice. -/
def dupWeights : List (String × ℚ) := [("A.csv", 1 / 2), ("A.csv", 1 / 2)]

/-! Helper lemmas for sections 1 and 2. -/

theorem pathChars_append (l₁ l₂ : List String) :
    pathChars (l₁ ++ l₂) = pathChars l₁ ++ pathChars l₂ := by
  induction l₁ with
  | nil => simp [pathChars]
  | cons s rest ih => simp [pathChars, ih]

theorem csvNameCore_iff (s : List Char) :
    csvNameCore s = true ↔
      ∃ stem, stem ≠ [] ∧ stem.all isWordChar = true ∧
        s = stem ++ ['.', 'c', 's', 'v'] := by
  constructor
  · intro h
    unfold csvNameCore at h
    split at h
    · exact absurd h (by simp)
    · rename_i hlen
      push_neg at hlen
      rw [Bool.and_eq_true, beq_iff_eq] at h
      obtain ⟨hd, ht⟩ := h
      refine ⟨s.take (s.length - 4), ?_, ht, ?_⟩
      · intro hnil
        have : s.length - 4 = 0 := by
          have := congrArg List.length hnil
          simpa [List.length_take] using this.le.antisymm (by omega)
        omega
      · conv_lhs => rw [← List.take_append_drop (s.length - 4) s]
        rw [hd]
  · rintro ⟨stem, hne, hall, rfl⟩
    have hst : 1 ≤ stem.length := List.length_pos.mpr hne
    have hlen : (stem ++ ['.', 'c', 's', 'v']).length = stem.length + 4 := by
      simp
    unfold csvNameCore
    rw [hlen]
    have h4 : stem.length + 4 - 4 = stem.length := by omega
    split
    · omega
    · rw [h4, List.drop_left, List.take_left, hall]
      simp

/-! Section 1 and 2 claim theorems come after all definitions; the file
continues with the model of 01_fetch_bls.py. -/

end PCCpi

namespace PCCpi

/-- Claim C1 (amended): the path containment check accepts every file
path whose resolution lies within the resolved data directory, so any
rejected path resolves outside it; and acceptance is exactly the
textual startswith relation between the two resolved paths, which is
weaker than containment. -/
theorem C1_path_check_sound (fp dir : List String) :
    (withinDir fp dir → validate_path_within_directory fp dir = true)
    ∧ (validate_path_within_directory fp dir = true ↔
        pathChars (resolveSegs dir) <+: pathChars (resolveSegs fp)) := by
  constructor
  · rintro ⟨t, ht⟩
    unfold validate_path_within_directory
    rw [ List.isPrefixOf_iff_prefix]
    exact ⟨pathChars t, by rw [← pathChars_append, ht]⟩
  · exact List.isPrefixOf_iff_prefix

/-- Witness for C1: a file inside the data directory passes the check. -/
theorem C1_path_check_sound_witness :
    validate_path_within_directory ["data", "raw", "x.csv"] ["data", "raw"] = true :=
  (C1_path_check_sound ["data", "raw", "x.csv"] ["data", "raw"]).1
    (show resolveSegs _ <+: resolveSegs _ by decide)

/-- Counterexample for C1 as stated: a path using traversal segments
that resolves to a sibling directory outside the data directory is
accepted by the check, even though its filename segment passes
validate_filename; so the check does not reject every path resolving
outside the directory, and acceptance does not imply containment. -/
theorem C1_counterexample :
    validate_path_within_directory
        ["data", "raw", "..", "raw_evil", "f.csv"] ["data", "raw"] = true
    ∧ ¬ withinDir ["data", "raw", "..", "raw_evil", "f.csv"] ["data", "raw"]
    ∧ validate_filename ['f', '.', 'c', 's', 'v'] = true := by
  refine ⟨by decide, ?_, by decide⟩
  intro h
  have : ¬ (resolveSegs ["data", "raw"] <+:
      resolveSegs ["data", "raw", "..", "raw_evil", "f.csv"]) := by decide
  exact this h

/-- Claim C2 (amended): validate_filename accepts a name exactly when it
is a nonempty run of word characters (ASCII alphanumerics, underscore,
hyphen) followed by the dot-csv extension, optionally followed by one
trailing newline; every other name is rejected, and the function touches
no filesystem state. -/
theorem C2_validate_filename_iff (s : List Char) :
    validate_filename s = true ↔
      ∃ stem, stem ≠ [] ∧ stem.all isWordChar = true ∧
        (s = stem ++ ['.', 'c', 's', 'v']
          ∨ s = stem ++ ['.', 'c', 's', 'v', '\n']) := by
  unfold validate_filename
  rw [Bool.or_eq_true, Bool.and_eq_true, beq_iff_eq]
  constructor
  · rintro (h | ⟨hlast, hcore⟩)
    · obtain ⟨stem, hne, hall, hs⟩ := (csvNameCore_iff s).mp h
      exact ⟨stem, hne, hall, Or.inl hs⟩
    · obtain ⟨stem, hne, hall, hs⟩ := (csvNameCore_iff s.dropLast).mp hcore
      have hsne : s ≠ [] := by
        intro hnil; rw [hnil] at hlast; simp at hlast
      have hrec : s.dropLast ++ [s.getLast hsne] = s :=
        List.dropLast_append_getLast hsne
      have hgl : s.getLast hsne = '\n' := by
        have := List.getLast?_eq_getLast s hsne
        rw [hlast] at this
        exact (Option.some_injective _ this.symm)
      refine ⟨stem, hne, hall, Or.inr ?_⟩
      rw [← hrec, hgl, hs]
      simp
  · rintro ⟨stem, hne, hall, (rfl | rfl)⟩
    · exact Or.inl ((csvNameCore_iff _).mpr ⟨stem, hne, hall, rfl⟩)
    · refine Or.inr ⟨?_, ?_⟩
      · have : stem ++ ['.', 'c', 's', 'v', '\n']
            = (stem ++ ['.', 'c', 's', 'v']) ++ ['\n'] := by simp
        rw [this, List.getLast?_concat]
      · have : (stem ++ ['.', 'c', 's', 'v', '\n']).dropLast
            = stem ++ ['.', 'c', 's', 'v'] := by
          have h2 : stem ++ ['.', 'c', 's', 'v', '\n']
              = (stem ++ ['.', 'c', 's', 'v']) ++ ['\n'] := by simp
          rw [h2, List.dropLast_concat]
        rw [this]
        exact (csvNameCore_iff _).mpr ⟨stem, hne, hall, rfl⟩

/-- Witness for C2: a plain well-formed filename is accepted. -/
theorem C2_validate_filename_iff_witness :
    validate_filename ['C', 'P', 'I', '_', '1', '.', 'c', 's', 'v'] = true :=
  (C2_validate_filename_iff _).mpr
    ⟨['C', 'P', 'I', '_', '1'], by decide, by decide, Or.inl rfl⟩

/-! Helper lemmas for the fetch model. -/

@[simp] theorem ebind_ok {α β : Type} (a : α) (f : α → Except Unit β) :
    (Except.ok a >>= f) = f a := rfl

@[simp] theorem ebind_err {α β : Type} (e : Unit) (f : α → Except Unit β) :
    ((Except.error e : Except Unit α) >>= f) = Except.error e := rfl

@[simp] theorem emap_ok {α β : Type} (g : α → β) (a : α) :
    (g <$> (Except.ok a : Except Unit α)) = Except.ok (g a) := rfl

@[simp] theorem emap_err {α β : Type} (g : α → β) (e : Unit) :
    (g <$> (Except.error e : Except Unit α)) = Except.error e := rfl

@[simp] theorem epure_eq {α : Type} (a : α) :
    (pure a : Except Unit α) = Except.ok a := rfl

theorem ebind_eq_ok {α β : Type} {x : Except Unit α} {f : α → Except Unit β} {r : β}
    (h : (x >>= f) = .ok r) : ∃ a, x = .ok a ∧ f a = .ok r := by
  cases x with
  | error e => simp at h
  | ok a => exact ⟨a, rfl, by simpa using h⟩

theorem fs_expand (env : ℕ → Attempt) :
    fetch_series env = fetchList [env 1, env 2, env 3] := rfl

theorem attempts_cons_timeout (rest : List Attempt) :
    (fetchList (.timeout :: rest)).attempts = (fetchList rest).attempts + 1 := rfl

theorem attempts_cons_connError (rest : List Attempt) :
    (fetchList (.connError :: rest)).attempts = (fetchList rest).attempts + 1 := rfl

theorem attempts_cons_http (rest : List Attempt) :
    (fetchList (.httpError :: rest)).attempts = 1 := rfl

theorem attempts_cons_ok (j : Json) (rest : List Attempt) :
    (fetchList (.ok j :: rest)).attempts = 1 := rfl

theorem sleeps_cons_timeout (rest : List Attempt) :
    (fetchList (.timeout :: rest)).sleeps
      = (fetchList rest).sleeps + (if rest.isEmpty then 0 else 1) := rfl

theorem sleeps_cons_connError (rest : List Attempt) :
    (fetchList (.connError :: rest)).sleeps
      = (fetchList rest).sleeps + (if rest.isEmpty then 0 else 1) := rfl

theorem fetchList_attempts_one (a : Attempt) : (fetchList [a]).attempts = 1 := by
  cases a <;> rfl

theorem fetchList_attempts_le (l : List Attempt) :
    (fetchList l).attempts ≤ l.length := by
  induction l with
  | nil => simp [fetchList]
  | cons a rest ih =>
    cases a with
    | timeout => rw [attempts_cons_timeout]; simp; omega
    | connError => rw [attempts_cons_connError]; simp; omega
    | httpError => rw [attempts_cons_http]; simp
    | ok j => rw [attempts_cons_ok j]; simp

theorem fetchList_attempts_pos (l : List Attempt) (h : l ≠ []) :
    1 ≤ (fetchList l).attempts := by
  cases l with
  | nil => exact absurd rfl h
  | cons a rest =>
    cases a with
    | timeout => rw [attempts_cons_timeout]; omega
    | connError => rw [attempts_cons_connError]; omega
    | httpError => rw [attempts_cons_http]
    | ok j => rw [attempts_cons_ok j]

theorem fetchList_sleeps (l : List Attempt) :
    (fetchList l).sleeps = (fetchList l).attempts - 1 := by
  induction l with
  | nil => rfl
  | cons a rest ih =>
    cases a with
    | httpError => rfl
    | ok j => rfl
    | timeout =>
      cases rest with
      | nil => rfl
      | cons b rb =>
        have hpos := fetchList_attempts_pos (b :: rb) (by simp)
        rw [sleeps_cons_timeout, attempts_cons_timeout]
        simp
        omega
    | connError =>
      cases rest with
      | nil => rfl
      | cons b rb =>
        have hpos := fetchList_attempts_pos (b :: rb) (by simp)
        rw [sleeps_cons_connError, attempts_cons_connError]
        simp
        omega

theorem fs_before (env : ℕ → Attempt) :
    ∀ k, 1 ≤ k → k < (fetch_series env).attempts → retryable (env k) := by
  intro k hk1 hk2
  rw [fs_expand] at hk2
  cases he1 : env 1 with
  | httpError =>
    rw [he1, attempts_cons_http] at hk2
    exact absurd hk2 (by omega)
  | ok j1 =>
    rw [he1, attempts_cons_ok] at hk2
    exact absurd hk2 (by omega)
  | timeout =>
    rw [he1, attempts_cons_timeout] at hk2
    cases he2 : env 2 with
    | httpError =>
      rw [he2, attempts_cons_http] at hk2
      have hk : k = 1 := by omega
      subst hk; exact Or.inl he1
    | ok j2 =>
      rw [he2, attempts_cons_ok] at hk2
      have hk : k = 1 := by omega
      subst hk; exact Or.inl he1
    | timeout =>
      rw [he2, attempts_cons_timeout, fetchList_attempts_one] at hk2
      have hk : k = 1 ∨ k = 2 := by omega
      rcases hk with rfl | rfl
      · exact Or.inl he1
      · exact Or.inl he2
    | connError =>
      rw [he2, attempts_cons_connError, fetchList_attempts_one] at hk2
      have hk : k = 1 ∨ k = 2 := by omega
      rcases hk with rfl | rfl
      · exact Or.inl he1
      · exact Or.inr he2
  | connError =>
    rw [he1, attempts_cons_connError] at hk2
    cases he2 : env 2 with
    | httpError =>
      rw [he2, attempts_cons_http] at hk2
      have hk : k = 1 := by omega
      subst hk; exact Or.inr he1
    | ok j2 =>
      rw [he2, attempts_cons_ok] at hk2
      have hk : k = 1 := by omega
      subst hk; exact Or.inr he1
    | timeout =>
      rw [he2, attempts_cons_timeout, fetchList_attempts_one] at hk2
      have hk : k = 1 ∨ k = 2 := by omega
      rcases hk with rfl | rfl
      · exact Or.inr he1
      · exact Or.inl he2
    | connError =>
      rw [he2, attempts_cons_connError, fetchList_attempts_one] at hk2
      have hk : k = 1 ∨ k = 2 := by omega
      rcases hk with rfl | rfl
      · exact Or.inr he1
      · exact Or.inr he2

theorem fs_http1 (env : ℕ → Attempt) (h : env 1 = .httpError) :
    fetch_series env = ⟨[], 1, 0⟩ := by
  rw [fs_expand, h]
  rfl

theorem fs_ok1 (env : ℕ → Attempt) (j : Json) (h : env 1 = .ok j) :
    fetch_series env = ⟨afterJson j, 1, 0⟩ := by
  rw [fs_expand, h]
  rfl

theorem fs_exhaust (env : ℕ → Attempt)
    (h : ∀ k, 1 ≤ k → k ≤ MAX_RETRIES → retryable (env k)) :
    fetch_series env = ⟨[], MAX_RETRIES, MAX_RETRIES - 1⟩ := by
  have h1 := h 1 (le_refl 1) (by norm_num [MAX_RETRIES])
  have h2 := h 2 (by norm_num) (by norm_num [MAX_RETRIES])
  have h3 := h 3 (by norm_num) (by norm_num [MAX_RETRIES])
  rw [fs_expand]
  rcases h1 with h1 | h1 <;> rcases h2 with h2 | h2 <;> rcases h3 with h3 | h3 <;>
    rw [h1, h2, h3] <;> rfl

/-- Claim C3: a payload that fails any check of validate_bls_response,
by returning false or by raising one of the caught exceptions, makes
fetch_series return the empty series at that very attempt: one attempt
executed, no retry, no sleep; the model is a total function, so nothing
escapes as an exception. -/
theorem C3_invalid_response_empty (env : ℕ → Attempt) (j : Json)
    (h1 : env 1 = .ok j) (h2 : validate_bls_response j ≠ .ok true) :
    fetch_series env = ⟨[], 1, 0⟩ := by
  have hb : afterJson j = [] := by
    cases hv : validate_bls_response j with
    | error e => simp [afterJson, hv]
    | ok b =>
      cases b with
      | false => simp [afterJson, hv]
      | true => exact absurd hv h2
  rw [fs_expand, h1]
  simp [fetchList, hb]

/-- Witness for C3: a payload that is not an object. -/
theorem C3_invalid_response_empty_witness :
    fetch_series (fun _ => Attempt.ok Json.null) = ⟨[], 1, 0⟩ :=
  C3_invalid_response_empty _ Json.null rfl (by
    intro h
    rw [show validate_bls_response Json.null = Except.ok false from rfl] at h
    simp at h)

/-- Claim C4: the retry policy of fetch_series: at most MAX_RETRIES
equal to three attempts; every attempt before the deciding one was a
timeout or connection error, so only those outcomes are retried; an
HTTP status error on the first attempt ends the call at once with the
empty series; a decoded payload on the first attempt ends the call at
once with whatever its processing yields, the empty series on any
parsing failure; exhausting all attempts on transient failures returns
the empty series rather than raising; and the number of RETRY_DELAY
second sleeps, RETRY_DELAY being five, is one less than the number of
attempts. -/
theorem C4_retry_policy (env : ℕ → Attempt) :
    MAX_RETRIES = 3 ∧ RETRY_DELAY = 5
    ∧ 1 ≤ (fetch_series env).attempts
    ∧ (fetch_series env).attempts ≤ MAX_RETRIES
    ∧ (∀ k, 1 ≤ k → k < (fetch_series env).attempts → retryable (env k))
    ∧ (env 1 = .httpError → fetch_series env = ⟨[], 1, 0⟩)
    ∧ (∀ j, env 1 = .ok j → fetch_series env = ⟨afterJson j, 1, 0⟩)
    ∧ ((∀ k, 1 ≤ k → k ≤ MAX_RETRIES → retryable (env k)) →
        fetch_series env = ⟨[], MAX_RETRIES, MAX_RETRIES - 1⟩)
    ∧ (fetch_series env).sleeps = (fetch_series env).attempts - 1 := by
  refine ⟨rfl, rfl, ?_, ?_, fs_before env, fs_http1 env,
    fun j h => fs_ok1 env j h, fs_exhaust env, ?_⟩
  · rw [fs_expand]
    exact fetchList_attempts_pos _ (by simp)
  · rw [fs_expand]
    have := fetchList_attempts_le [env 1, env 2, env 3]
    simpa [MAX_RETRIES] using this
  · rw [fs_expand]
    exact fetchList_sleeps _

/-- Witness for C4: an environment that always times out exhausts the
three attempts, sleeps twice, and returns the empty series. -/
theorem C4_retry_policy_witness :
    fetch_series (fun _ => Attempt.timeout) = ⟨[], 3, 2⟩ :=
  (C4_retry_policy (fun _ => Attempt.timeout)).2.2.2.2.2.2.2.1
    (fun _ _ _ => Or.inl rfl)

theorem recsOfItems_filter : ∀ (items : List Json) (recs : List (ℕ × ℚ)),
    recsOfItems items = .ok recs →
    recsOfItems (items.filter (fun it => ! isSentinelItem it)) = .ok recs := by
  intro items
  induction items with
  | nil => intro recs h; simpa using h
  | cons item rest ih =>
    intro recs h
    rw [recsOfItems] at h
    obtain ⟨v, hv, h⟩ := ebind_eq_ok h
    split at h
    · rename_i hc
      obtain ⟨y, hy, h⟩ := ebind_eq_ok h
      obtain ⟨p, hp, h⟩ := ebind_eq_ok h
      have hsent : isSentinelItem item = true := by
        simp only [isSentinelItem, hv]
        exact hc
      rw [List.filter_cons_of_neg (by simp [hsent])]
      exact ih recs h
    · rename_i hc
      obtain ⟨r, hr, h⟩ := ebind_eq_ok h
      obtain ⟨rest2, hrest, h⟩ := ebind_eq_ok h
      have hrecs : r :: rest2 = recs := by simpa using h
      have hsent : isSentinelItem item = false := by
        simp only [isSentinelItem, hv]
        simpa using hc
      rw [List.filter_cons_of_pos (by simp [hsent])]
      rw [recsOfItems, hv]
      simp only [ebind_ok]
      rw [if_neg hc, hr]
      simp only [ebind_ok]
      rw [ih rest2 hrest]
      simp only [ebind_ok, epure_eq]
      rw [hrecs]

theorem recsOfItems_all_sentinel : ∀ (items : List Json),
    (∀ it ∈ items, isSentinelItem it = true) →
    recsOfItems items = .error () ∨ recsOfItems items = .ok [] := by
  intro items
  induction items with
  | nil => intro h; exact Or.inr rfl
  | cons item rest ih =>
    intro h
    have hsent := h item (List.mem_cons_self item rest)
    rw [recsOfItems]
    cases hv : pyGetItem item "value" with
    | error e =>
      simp only [ebind_err]
      cases e
      exact Or.inl trivial
    | ok v =>
      simp only [ebind_ok]
      have hc : (v.eqStr "-" || v.eqStr "") = true := by
        simpa only [isSentinelItem, hv] using hsent
      rw [if_pos hc]
      cases hy : pyGetItem item "year" with
      | error e =>
        simp only [ebind_err]
        cases e
        exact Or.inl trivial
      | ok yv =>
        simp only [ebind_ok]
        cases hp : pyGetItem item "period" with
        | error e =>
          simp only [ebind_err]
          cases e
          exact Or.inl trivial
        | ok pv =>
          simp only [ebind_ok]
          exact ih (fun it hit => h it (List.mem_cons_of_mem item hit))

theorem sortRecs_sorted (l : List (ℕ × ℚ)) :
    List.Pairwise (fun a b : ℕ × ℚ => a.1 ≤ b.1) (sortRecs l) := by
  have h := @List.sorted_mergeSort (ℕ × ℚ) (fun a b => decide (a.1 ≤ b.1))
    (fun a b c hab hbc => by simp at hab hbc ⊢; omega)
    (fun a b => by simp; omega) l
  rw [sortRecs]
  refine h.imp ?_
  intro a b hab
  simpa using hab

theorem afterJson_sorted (j : Json) :
    List.Pairwise (fun a b : ℕ × ℚ => a.1 ≤ b.1) (afterJson j) := by
  rw [afterJson]
  cases hv : validate_bls_response j with
  | error e => exact List.Pairwise.nil
  | ok b =>
    cases b with
    | false => exact List.Pairwise.nil
    | true =>
      cases hr : seriesRecords j with
      | error e => exact List.Pairwise.nil
      | ok recs =>
        cases recs with
        | nil => exact List.Pairwise.nil
        | cons a t => exact sortRecs_sorted (a :: t)

theorem fetchList_series_sorted (l : List Attempt) :
    List.Pairwise (fun a b : ℕ × ℚ => a.1 ≤ b.1) (fetchList l).series := by
  induction l with
  | nil => exact List.Pairwise.nil
  | cons a rest ih =>
    cases a with
    | httpError => exact List.Pairwise.nil
    | ok j => exact afterJson_sorted j
    | timeout => exact ih
    | connError => exact ih

/-- Claim C7: during record construction each datum whose value is the
dash or empty sentinel contributes no record, so a record list that
builds successfully is unchanged when the sentinel items are dropped
first; the returned series is always sorted ascending by date; and a
payload whose data array holds only sentinel values makes fetch_series
return the empty series. -/
theorem C7_sentinel_and_sorting :
    (∀ (items : List Json) (recs : List (ℕ × ℚ)), recsOfItems items = .ok recs →
        recsOfItems (items.filter (fun it => ! isSentinelItem it)) = .ok recs)
    ∧ (∀ env : ℕ → Attempt,
        List.Pairwise (fun a b : ℕ × ℚ => a.1 ≤ b.1) (fetch_series env).series)
    ∧ (∀ (env : ℕ → Attempt) (j : Json) (items : List Json),
        env 1 = .ok j → dataItems j = .ok items →
        (∀ it ∈ items, isSentinelItem it = true) →
        (fetch_series env).series = []) := by
  refine ⟨recsOfItems_filter, fun env => ?_, ?_⟩
  · rw [fs_expand]
    exact fetchList_series_sorted _
  · intro env j items h1 hd hall
    rw [fs_ok1 env j h1]
    show afterJson j = []
    cases hv : validate_bls_response j with
    | error e => simp [afterJson, hv]
    | ok b =>
      cases b with
      | false => simp [afterJson, hv]
      | true =>
        have hsr : seriesRecords j = recsOfItems items := by
          rw [seriesRecords, hd]
          simp only [ebind_ok]
        rcases recsOfItems_all_sentinel items hall with he | he
        · simp [afterJson, hv, hsr, he]
        · simp [afterJson, hv, hsr, he]

/-- Witness for C7: a payload carrying two sentinel observations yields
the empty series. -/
theorem C7_sentinel_and_sorting_witness :
    (fetch_series (fun _ => Attempt.ok sentinelPayload)).series = [] := by
  refine C7_sentinel_and_sorting.2.2 (fun _ => Attempt.ok sentinelPayload)
    sentinelPayload sentinelItems rfl rfl ?_
  intro it hit
  simp only [sentinelItems, List.mem_cons, List.not_mem_nil, or_false] at hit
  rcases hit with rfl | rfl <;> rfl

/-! Helper lemmas for the panel and index model. -/

theorem oadd_assoc (x y z : Option ℚ) : oadd (oadd x y) z = oadd x (oadd y z) := by
  cases x <;> cases y <;> cases z <;> simp [oadd, add_assoc]

theorem oadd_comm (x y : Option ℚ) : oadd x y = oadd y x := by
  cases x <;> cases y <;> simp [oadd, add_comm]

theorem oadd_none_right (x : Option ℚ) : oadd x none = none := by
  cases x <;> rfl

theorem contains_of_mem {a : String} {l : List String} (h : a ∈ l) :
    l.contains a = true :=
  List.elem_iff.mpr h

theorem buildAux_sev (p : Panel) (rows : List (String × ℚ)) :
    ∀ (sev : ℕ → Option ℚ) (tw : ℚ) (warn : List String) (d : ℕ),
      (buildAux p sev tw warn rows).1 d
        = (rows.filter (fun r => p.colNames.contains r.1)).foldl
            (fun acc r => oadd acc (termOf p r d)) (sev d) := by
  induction rows with
  | nil => intro sev tw warn d; rfl
  | cons row rest ih =>
    intro sev tw warn d
    by_cases hc : p.colNames.contains row.1 = true
    · simp only [buildAux, if_pos hc, ih]
      rw [@List.filter_cons_of_pos _ (fun r => p.colNames.contains r.1) row rest hc,
        List.foldl_cons]
    · simp only [buildAux, if_neg hc, ih]
      rw [@List.filter_cons_of_neg _ (fun r => p.colNames.contains r.1) row rest hc]

theorem buildAux_total (p : Panel) (rows : List (String × ℚ)) :
    ∀ (sev : ℕ → Option ℚ) (tw : ℚ) (warn : List String),
      (buildAux p sev tw warn rows).2.1
        = tw + ((rows.filter (fun r => p.colNames.contains r.1)).map Prod.snd).sum := by
  induction rows with
  | nil => intro sev tw warn; simp [buildAux]
  | cons row rest ih =>
    intro sev tw warn
    by_cases hc : p.colNames.contains row.1 = true
    · simp only [buildAux, if_pos hc, ih]
      rw [@List.filter_cons_of_pos _ (fun r => p.colNames.contains r.1) row rest hc]
      simp only [List.map_cons, List.sum_cons]
      ring
    · simp only [buildAux, if_neg hc, ih]
      rw [@List.filter_cons_of_neg _ (fun r => p.colNames.contains r.1) row rest hc]

theorem buildAux_warn (p : Panel) (rows : List (String × ℚ)) :
    ∀ (sev : ℕ → Option ℚ) (tw : ℚ) (warn : List String),
      (buildAux p sev tw warn rows).2.2
        = warn ++ (rows.filter (fun r => !(p.colNames.contains r.1))).map Prod.fst := by
  induction rows with
  | nil => intro sev tw warn; simp [buildAux]
  | cons row rest ih =>
    intro sev tw warn
    by_cases hc : p.colNames.contains row.1 = true
    · rw [@List.filter_cons_of_neg _ (fun r => !(p.colNames.contains r.1)) row rest
        (by simpa using List.elem_iff.mp hc)]
      simp only [buildAux, if_pos hc, ih]
    · rw [@List.filter_cons_of_pos _ (fun r => !(p.colNames.contains r.1)) row rest
        (by simpa using fun hmem => hc (contains_of_mem hmem))]
      simp only [buildAux, if_neg hc, ih, List.map_cons]
      simp

theorem build_severity_sev (p : Panel) (weights : List (String × ℚ)) (d : ℕ) :
    (build_severity_index p weights).severity d
      = (weights.filter (fun r => p.colNames.contains r.1)).foldl
          (fun acc r => oadd acc (termOf p r d)) (some 0) := by
  simp only [build_severity_index]
  exact buildAux_sev p weights _ 0 [] d

theorem build_severity_total (p : Panel) (weights : List (String × ℚ)) :
    (build_severity_index p weights).total_weight
      = ((weights.filter (fun r => p.colNames.contains r.1)).map Prod.snd).sum := by
  simp only [build_severity_index]
  rw [buildAux_total p weights _ 0 []]
  ring

theorem build_severity_warn (p : Panel) (weights : List (String × ℚ)) :
    (build_severity_index p weights).missingWarnings
      = (weights.filter (fun r => !(p.colNames.contains r.1))).map Prod.fst := by
  simp only [build_severity_index]
  rw [buildAux_warn p weights _ 0 []]
  simp

theorem foldl_oadd_bound (p : Panel) (d : ℕ) (lo hi : ℚ) :
    ∀ (l : List (String × ℚ)) (s : ℚ),
      (∀ r ∈ l, 0 ≤ r.2) →
      (∀ r ∈ l, ∃ v, panelCell p r.1 d = some v ∧ lo ≤ v ∧ v ≤ hi) →
      ∃ c, l.foldl (fun acc r => oadd acc (termOf p r d)) (some s) = some c
        ∧ s + ((l.map Prod.snd).sum) * lo ≤ c ∧ c ≤ s + ((l.map Prod.snd).sum) * hi := by
  intro l
  induction l with
  | nil =>
    intro s _ _
    exact ⟨s, rfl, by simp, by simp⟩
  | cons r rest ih =>
    intro s hw hcell
    obtain ⟨v, hv, hlo, hhi⟩ := hcell r (List.mem_cons_self r rest)
    have hw0 : 0 ≤ r.2 := hw r (List.mem_cons_self r rest)
    have hstep : oadd (some s) (termOf p r d) = some (s + r.2 * v) := by
      simp [termOf, hv, osmul, oadd]
    rw [List.foldl_cons, hstep]
    obtain ⟨c, hc, h1, h2⟩ := ih (s + r.2 * v)
      (fun x hx => hw x (List.mem_cons_of_mem _ hx))
      (fun x hx => hcell x (List.mem_cons_of_mem _ hx))
    refine ⟨c, hc, ?_, ?_⟩
    · have hm : r.2 * lo ≤ r.2 * v := mul_le_mul_of_nonneg_left hlo hw0
      have hexp : (r.2 + ((rest.map Prod.snd).sum)) * lo
          = r.2 * lo + ((rest.map Prod.snd).sum) * lo := by ring
      simp only [List.map_cons, List.sum_cons]
      linarith
    · have hm : r.2 * v ≤ r.2 * hi := mul_le_mul_of_nonneg_left hhi hw0
      have hexp : (r.2 + ((rest.map Prod.snd).sum)) * hi
          = r.2 * hi + ((rest.map Prod.snd).sum) * hi := by ring
      simp only [List.map_cons, List.sum_cons]
      linarith

theorem foldl_oadd_none_init (p : Panel) (d : ℕ) (l : List (String × ℚ)) :
    l.foldl (fun acc r => oadd acc (termOf p r d)) none = none := by
  induction l with
  | nil => rfl
  | cons r rest ih =>
    rw [List.foldl_cons]
    have : oadd none (termOf p r d) = none := rfl
    rw [this, ih]

theorem foldl_oadd_absorb (p : Panel) (d : ℕ) :
    ∀ (l : List (String × ℚ)) (r₀ : String × ℚ), r₀ ∈ l → termOf p r₀ d = none →
      ∀ init, l.foldl (fun acc r => oadd acc (termOf p r d)) init = none := by
  intro l
  induction l with
  | nil => intro r₀ h; cases h
  | cons x rest ih =>
    intro r₀ hmem hnone init
    rcases List.mem_cons.mp hmem with rfl | hmem2
    · rw [List.foldl_cons, hnone, oadd_none_right]
      exact foldl_oadd_none_init p d rest
    · rw [List.foldl_cons]
      exact ih r₀ hmem2 hnone _

theorem foldl_oadd_shift (p : Panel) (d : ℕ) :
    ∀ (l : List (String × ℚ)) (x y : Option ℚ),
      l.foldl (fun acc r => oadd acc (termOf p r d)) (oadd x y)
        = oadd x (l.foldl (fun acc r => oadd acc (termOf p r d)) y) := by
  intro l
  induction l with
  | nil => intro x y; rfl
  | cons r rest ih =>
    intro x y
    rw [List.foldl_cons, oadd_assoc, ih, List.foldl_cons]

theorem build_total_cons (p : Panel) (e : String × ℚ) (rest : List (String × ℚ))
    (hc : p.colNames.contains e.1 = true) :
    (build_severity_index p (e :: rest)).total_weight
      = e.2 + (build_severity_index p rest).total_weight := by
  rw [build_severity_total, build_severity_total,
    @List.filter_cons_of_pos _ (fun r => p.colNames.contains r.1) e rest hc,
    List.map_cons, List.sum_cons]

theorem build_sev_cons (p : Panel) (e : String × ℚ) (rest : List (String × ℚ)) (d : ℕ)
    (hc : p.colNames.contains e.1 = true) :
    (build_severity_index p (e :: rest)).severity d
      = oadd (termOf p e d) ((build_severity_index p rest).severity d) := by
  rw [build_severity_sev, build_severity_sev,
    @List.filter_cons_of_pos _ (fun r => p.colNames.contains r.1) e rest hc,
    List.foldl_cons]
  rw [oadd_comm (some 0) (termOf p e d), foldl_oadd_shift]

theorem panelCell_normalize (p : Panel) (baseDate : ℕ) (c : String) (d : ℕ) :
    panelCell (normalizePanel p baseDate) c d
      = match panelCell p c d, panelCell p c baseDate with
        | some v, some b => some (v / b * 100)
        | _, _ => none := by
  rcases p with ⟨dates, cols⟩
  simp only [normalizePanel, panelCell]
  induction cols with
  | nil => rfl
  | cons x rest ih =>
    simp only [List.map_cons]
    cases hx : x.1 == c with
    | true => simp [List.find?_cons_of_pos, hx]
    | false =>
      rw [List.find?_cons_of_neg _ (by simp [hx]), List.find?_cons_of_neg _ (by simp [hx])]
      exact ih

theorem mkPanel_cell_none (dfs : List (String × TimeSeries)) (name : String)
    (ts : TimeSeries) (d : ℕ) :
    (dfs.map Prod.fst).Nodup → (name, ts) ∈ dfs →
    d ∉ (ts : List (ℕ × ℚ)).map Prod.fst →
    panelCell (mkPanel dfs) name d = none := by
  induction dfs with
  | nil => intro _ hmem _; simp at hmem
  | cons q rest ih =>
    intro hnd hmem habs
    simp only [mkPanel, panelCell, List.map_cons]
    cases hq : q.1 == name with
    | true =>
      rw [@List.find?_cons_of_pos _ (fun x => x.1 == name)
        (q.1, fun d => tsLookup q.2 d) _ hq]
      have hqeq : q.1 = name := by simpa using hq
      rcases List.mem_cons.mp hmem with heq | hmem2
      · have hts : q.2 = ts := by rw [← heq]
        have hfind : (ts : List (ℕ × ℚ)).find? (fun r => r.1 == d) = none := by
          rw [List.find?_eq_none]
          intro x hx hbeq
          exact habs (List.mem_map.mpr ⟨x, hx, by simpa using hbeq⟩)
        simp [tsLookup, hts, hfind]
      · exfalso
        have hin : name ∈ rest.map Prod.fst :=
          List.mem_map.mpr ⟨(name, ts), hmem2, rfl⟩
        have hnotin : q.1 ∉ rest.map Prod.fst := by
          rw [List.map_cons] at hnd
          exact (List.nodup_cons.mp hnd).1
        exact hnotin (hqeq ▸ hin)
    | false =>
      rw [@List.find?_cons_of_neg _ (fun x => x.1 == name)
        (q.1, fun d => tsLookup q.2 d) _ (by simp [hq])]
      have hmem2 : (name, ts) ∈ rest := by
        rcases List.mem_cons.mp hmem with heq | hmem2
        · exfalso
          have : q.1 = name := by rw [← heq]
          simp [this] at hq
        · exact hmem2
      have hnd2 : (rest.map Prod.fst).Nodup := by
        rw [List.map_cons] at hnd
        exact (List.nodup_cons.mp hnd).2
      simpa [mkPanel, panelCell] using ih hnd2 hmem2 habs

/-- Claim C6: the row index of the combined panel is exactly the union
of the loaded series dates; a series with no observation at a date has
a missing cell there; and a weighted term over a missing cell makes the
composite missing at that date instead of contributing zero. -/
theorem C6_outer_join_missing (dfs : List (String × TimeSeries)) (d : ℕ) :
    (d ∈ (mkPanel dfs).dates ↔ ∃ q ∈ dfs, d ∈ (q.2 : List (ℕ × ℚ)).map Prod.fst)
    ∧ (∀ (name : String) (ts : TimeSeries), (dfs.map Prod.fst).Nodup →
        (name, ts) ∈ dfs → d ∉ (ts : List (ℕ × ℚ)).map Prod.fst →
        panelCell (mkPanel dfs) name d = none)
    ∧ (∀ (p : Panel) (weights : List (String × ℚ)) (c : String) (w : ℚ),
        (c, w) ∈ weights → p.colNames.contains c = true →
        panelCell p c d = none →
        (build_severity_index p weights).severity d = none) := by
  refine ⟨?_, fun name ts h1 h2 h3 => mkPanel_cell_none dfs name ts d h1 h2 h3, ?_⟩
  · simp only [mkPanel]
    rw [(List.mergeSort_perm _ _).mem_iff]
    simp only [List.mem_dedup, List.mem_flatten, List.mem_map]
    constructor
    · rintro ⟨l, ⟨q, hq, rfl⟩, hd⟩
      obtain ⟨a, ha, he⟩ := List.mem_map.mp hd
      exact ⟨q, hq, a, ha, he⟩
    · rintro ⟨q, hq, a, ha, he⟩
      exact ⟨(q.2 : List (ℕ × ℚ)).map Prod.fst, ⟨q, hq, rfl⟩,
        List.mem_map.mpr ⟨a, ha, he⟩⟩
  · intro p weights c w hmem hcont hcell
    rw [build_severity_sev]
    refine foldl_oadd_absorb p d _ (c, w) ?_ ?_ _
    · exact List.mem_filter.mpr ⟨hmem, hcont⟩
    · simp [termOf, hcell, osmul]

/-- Witness for C6: in the two-series fixture the second series has an
observation at date one and the first has none, so date one is in the
panel index, the first column is missing there, and the weighted
composite is missing there. -/
theorem C6_outer_join_missing_witness :
    1 ∈ (mkPanel dfs6).dates
    ∧ panelCell (mkPanel dfs6) "A.csv" 1 = none
    ∧ (build_severity_index (mkPanel dfs6) w6Weights).severity 1 = none := by
  refine ⟨?_, ?_, ?_⟩
  · exact (C6_outer_join_missing dfs6 1).1.mpr
      ⟨("B.csv", ([(0, 5), (1, 7)] : List (ℕ × ℚ))), by simp [dfs6], by simp⟩
  · exact (C6_outer_join_missing dfs6 1).2.1 "A.csv" ([(0, 10)] : List (ℕ × ℚ))
      (by simp [dfs6]) (by simp [dfs6]) (by simp)
  · exact (C6_outer_join_missing dfs6 1).2.2 (mkPanel dfs6) w6Weights "A.csv" (1 / 2)
      (by simp [w6Weights]) (by rfl) (by rfl)

/-- Claim C5 (amended): when the weights sum to exactly one, all
weights are nonnegative, and every referenced series is a panel column
with a defined value at the date, the composite at that date is defined
and lies between the minimum and the maximum of the referenced values;
nonnegativity is necessary, as the counterexample shows. -/
theorem C5_composite_bounds (p : Panel) (weights : List (String × ℚ)) (d : ℕ)
    (hsum : (weights.map Prod.snd).sum = 1)
    (hw : ∀ r ∈ weights, 0 ≤ r.2)
    (hcols : ∀ r ∈ weights, p.colNames.contains r.1 = true)
    (hcells : ∀ r ∈ weights, ∃ v, panelCell p r.1 d = some v) :
    ∃ (c m M : ℚ), (build_severity_index p weights).severity d = some c
      ∧ (weights.filterMap (fun r => panelCell p r.1 d)).minimum = (m : WithTop ℚ)
      ∧ (weights.filterMap (fun r => panelCell p r.1 d)).maximum = (M : WithBot ℚ)
      ∧ m ≤ c ∧ c ≤ M := by
  have hne : weights ≠ [] := by
    intro h
    rw [h] at hsum
    simp at hsum
  have hvne : weights.filterMap (fun r => panelCell p r.1 d) ≠ [] := by
    cases hwl : weights with
    | nil => exact absurd hwl hne
    | cons r rest =>
      obtain ⟨v, hv⟩ := hcells r (hwl ▸ List.mem_cons_self r rest)
      simp [List.filterMap_cons, hv]
  obtain ⟨m, hm⟩ : ∃ m : ℚ,
      (weights.filterMap (fun r => panelCell p r.1 d)).minimum = (m : WithTop ℚ) := by
    cases hmm : (weights.filterMap fun r => panelCell p r.1 d).minimum with
    | top => exact absurd (List.minimum_eq_top.mp hmm) hvne
    | coe m => exact ⟨m, rfl⟩
  obtain ⟨M, hM⟩ : ∃ M : ℚ,
      (weights.filterMap (fun r => panelCell p r.1 d)).maximum = (M : WithBot ℚ) := by
    cases hmm : (weights.filterMap fun r => panelCell p r.1 d).maximum with
    | bot => exact absurd (List.maximum_eq_bot.mp hmm) hvne
    | coe M => exact ⟨M, rfl⟩
  have hbounds : ∀ r ∈ weights, ∃ v, panelCell p r.1 d = some v ∧ m ≤ v ∧ v ≤ M := by
    intro r hr
    obtain ⟨v, hv⟩ := hcells r hr
    have hvmem : v ∈ weights.filterMap (fun r => panelCell p r.1 d) :=
      List.mem_filterMap.mpr ⟨r, hr, hv⟩
    exact ⟨v, hv, List.minimum_le_of_mem hvmem hm, List.le_maximum_of_mem hvmem hM⟩
  have hfilter : weights.filter (fun r => p.colNames.contains r.1) = weights :=
    List.filter_eq_self.mpr hcols
  obtain ⟨c, hc, h1, h2⟩ := foldl_oadd_bound p d m M weights 0 hw hbounds
  refine ⟨c, m, M, ?_, hm, hM, ?_, ?_⟩
  · rw [build_severity_sev, hfilter]
    exact hc
  · rw [hsum] at h1
    calc m = 0 + 1 * m := by ring
      _ ≤ c := h1
  · rw [hsum] at h2
    calc c ≤ 0 + 1 * M := h2
      _ = M := by ring

/-- Witness for C5: equal weights over columns at one hundred and one
hundred ten give a composite between those values. -/
theorem C5_composite_bounds_witness :
    ∃ (c m M : ℚ), (build_severity_index w5Panel w5Weights).severity 0 = some c
      ∧ (w5Weights.filterMap (fun r => panelCell w5Panel r.1 0)).minimum = (m : WithTop ℚ)
      ∧ (w5Weights.filterMap (fun r => panelCell w5Panel r.1 0)).maximum = (M : WithBot ℚ)
      ∧ m ≤ c ∧ c ≤ M := by
  refine C5_composite_bounds w5Panel w5Weights 0 ?_ ?_ ?_ ?_
  · simp [w5Weights]
    norm_num
  · intro r hr
    simp [w5Weights] at hr
    rcases hr with rfl | rfl <;> norm_num
  · intro r hr
    simp [w5Weights] at hr
    rcases hr with rfl | rfl <;> rfl
  · intro r hr
    simp [w5Weights] at hr
    rcases hr with rfl | rfl
    · exact ⟨100, rfl⟩
    · exact ⟨110, rfl⟩

/-- Counterexample for C5 as stated: a weights table with a negative
entry still sums to one and references only panel columns of a
normalized panel, yet at date one the composite is minus two hundred,
strictly below both referenced values zero and two hundred. -/
theorem C5_counterexample :
    (ceWeights.map Prod.snd).sum = 1
    ∧ ceWeights.all (fun r => cePanel.colNames.contains r.1) = true
    ∧ panelCell cePanel "A.csv" 1 = some 0
    ∧ panelCell cePanel "B.csv" 1 = some 200
    ∧ (build_severity_index cePanel ceWeights).severity 1 = some (-200)
    ∧ ((-200 : ℚ) < 0) := by
  have hce : cePanel = normalizePanel cePanelRaw 0 := rfl
  have hA : panelCell cePanel "A.csv" 1 = some 0 := by
    rw [hce, panelCell_normalize,
      show panelCell cePanelRaw "A.csv" 1 = some 0 from rfl,
      show panelCell cePanelRaw "A.csv" 0 = some 50 from rfl]
    norm_num
  have hB : panelCell cePanel "B.csv" 1 = some 200 := by
    rw [hce, panelCell_normalize,
      show panelCell cePanelRaw "B.csv" 1 = some 50 from rfl,
      show panelCell cePanelRaw "B.csv" 0 = some 25 from rfl]
    norm_num
  refine ⟨by norm_num [ceWeights], rfl, hA, hB, ?_, by norm_num⟩
  have hcA : cePanel.colNames.contains "A.csv" = true := rfl
  have hcB : cePanel.colNames.contains "B.csv" = true := rfl
  rw [show ceWeights = ("A.csv", (2 : ℚ)) :: ("B.csv", (-1 : ℚ)) :: [] from rfl,
    build_sev_cons _ _ _ _ hcA, build_sev_cons _ _ _ _ hcB]
  simp only [termOf]
  rw [hA, hB,
    show (build_severity_index cePanel ([] : List (String × ℚ))).severity 1 = some 0
      from rfl]
  simp [osmul, oadd]

/-- Claim C8: a panel column with a defined nonzero value at the base
date normalizes to exactly one hundred at the base date. -/
theorem C8_normalize_base (p : Panel) (baseDate : ℕ) (c : String) (b : ℚ)
    (hb : panelCell p c baseDate = some b) (hbz : b ≠ 0) :
    panelCell (normalizePanel p baseDate) c baseDate = some 100 := by
  rw [panelCell_normalize, hb]
  simp [div_self hbz]

/-- Witness for C8: a base value of fifty normalizes to one hundred. -/
theorem C8_normalize_base_witness :
    panelCell (normalizePanel w8Panel 0) "A.csv" 0 = some 100 :=
  C8_normalize_base w8Panel 0 "A.csv" 50 rfl (by norm_num)

/-- Claim C9 (amended): a weight row naming a series absent from the
panel is warned about, contributes nothing to composite or cumulative
weight, and the run still returns the composite of the remaining rows;
the applied total equals the nominal total minus the summed weights of
the absent rows, hence is strictly less exactly when that sum is
positive — a zero-weight absent row leaves the totals equal, as the
counterexample shows. -/
theorem C9_missing_series (p : Panel) (weights : List (String × ℚ)) (e : String × ℚ)
    (hmem : e ∈ weights) (habs : p.colNames.contains e.1 = false) :
    e.1 ∈ (build_severity_index p weights).missingWarnings
    ∧ (build_severity_index p weights).severity
        = (build_severity_index p
            (weights.filter (fun r => p.colNames.contains r.1))).severity
    ∧ (build_severity_index p weights).total_weight
        = (build_severity_index p
            (weights.filter (fun r => p.colNames.contains r.1))).total_weight
    ∧ (build_severity_index p weights).total_weight
        = (weights.map Prod.snd).sum
          - ((weights.filter (fun r => !(p.colNames.contains r.1))).map Prod.snd).sum
    ∧ (0 < ((weights.filter (fun r => !(p.colNames.contains r.1))).map Prod.snd).sum →
        (build_severity_index p weights).total_weight < (weights.map Prod.snd).sum) := by
  have hidem : (weights.filter (fun r => p.colNames.contains r.1)).filter
      (fun r => p.colNames.contains r.1)
      = weights.filter (fun r => p.colNames.contains r.1) := by
    rw [List.filter_filter]
    congr 1
    funext a
    rw [Bool.and_self]
  have hsplit : ((weights.filter (fun r => p.colNames.contains r.1)).map Prod.snd).sum
      + ((weights.filter (fun r => !(p.colNames.contains r.1))).map Prod.snd).sum
      = (weights.map Prod.snd).sum := by
    have hperm := (List.filter_append_perm (fun r => p.colNames.contains r.1) weights).map
      Prod.snd
    have hs := hperm.sum_eq
    simpa [List.map_append, List.sum_append] using hs
  have habs2 : e.1 ∉ p.colNames := by
    intro hm
    rw [contains_of_mem hm] at habs
    simp at habs
  refine ⟨?_, ?_, ?_, ?_, ?_⟩
  · rw [build_severity_warn]
    exact List.mem_map.mpr ⟨e, List.mem_filter.mpr ⟨hmem, by simpa using habs2⟩, rfl⟩
  · funext d
    rw [build_severity_sev, build_severity_sev, hidem]
  · rw [build_severity_total, build_severity_total, hidem]
  · rw [build_severity_total]
    linarith
  · intro hpos
    rw [build_severity_total]
    linarith

/-- Witness for C9: an absent series of weight one quarter leaves the
applied total strictly below the nominal total. -/
theorem C9_missing_series_witness :
    "B.csv" ∈ (build_severity_index c9Panel w9Weights).missingWarnings
    ∧ (build_severity_index c9Panel w9Weights).total_weight
        < (w9Weights.map Prod.snd).sum := by
  have h := C9_missing_series c9Panel w9Weights ("B.csv", 1 / 4)
    (by simp [w9Weights]) (by rfl)
  refine ⟨h.1, h.2.2.2.2 ?_⟩
  rw [show w9Weights.filter (fun r => !(c9Panel.colNames.contains r.1))
      = [("B.csv", 1 / 4)] from rfl]
  norm_num

/-- Counterexample for C9 as stated: with an absent series of weight
zero the warning fires and the row contributes nothing, yet the applied
total equals the nominal total instead of being less. -/
theorem C9_counterexample :
    c9Panel.colNames.contains "B.csv" = false
    ∧ "B.csv" ∈ (build_severity_index c9Panel c9Weights).missingWarnings
    ∧ (build_severity_index c9Panel c9Weights).total_weight
        = (c9Weights.map Prod.snd).sum
    ∧ ¬ ((build_severity_index c9Panel c9Weights).total_weight
        < (c9Weights.map Prod.snd).sum) := by
  have hf1 : c9Weights.filter (fun r => c9Panel.colNames.contains r.1)
      = [("A.csv", 1)] := rfl
  have hf2 : c9Weights.filter (fun r => !(c9Panel.colNames.contains r.1))
      = [("B.csv", 0)] := rfl
  refine ⟨rfl, ?_, ?_, ?_⟩
  · rw [build_severity_warn, hf2]
    simp
  · rw [build_severity_total, hf1]
    norm_num [c9Weights]
  · rw [build_severity_total, hf1]
    norm_num [c9Weights]

theorem loadAux_keys_nodup (dataDir : List String) (store : String → Option TimeSeries) :
    ∀ (rows : List (String × ℚ)) (dfs : List (String × TimeSeries)) (log : List String),
      (dfs.map Prod.fst).Nodup →
      ((loadAux dataDir store dfs log rows).1.map Prod.fst).Nodup := by
  intro rows
  induction rows with
  | nil => intro dfs log h; exact h
  | cons row rest ih =>
    intro dfs log h
    simp only [loadAux]
    split_ifs with h1 h2 h3
    · exact ih dfs log h
    · exact ih dfs log h
    · exact ih dfs log h
    · cases hst : store row.1 with
      | some ts =>
        refine ih _ _ ?_
        rw [List.map_append, List.nodup_append]
        refine ⟨h, by simp, ?_⟩
        intro a ha hb
        simp at hb
        subst hb
        exact h2 (contains_of_mem ha)
      | none => exact ih dfs _ h

theorem loadAux_count (dataDir : List String) (store : String → Option TimeSeries)
    (name : String) (ts : TimeSeries) (hst : store name = some ts) :
    ∀ (rows : List (String × ℚ)) (dfs : List (String × TimeSeries)) (log : List String),
      (name ∈ dfs.map Prod.fst →
        (loadAux dataDir store dfs log rows).2.count name = log.count name)
      ∧ (name ∉ dfs.map Prod.fst →
        (loadAux dataDir store dfs log rows).2.count name ≤ log.count name + 1) := by
  intro rows
  induction rows with
  | nil =>
    intro dfs log
    exact ⟨fun _ => rfl, fun _ => Nat.le_succ _⟩
  | cons row rest ih =>
    intro dfs log
    simp only [loadAux]
    split_ifs with h1 h2 h3
    · exact ih dfs log
    · exact ih dfs log
    · exact ih dfs log
    · cases hst2 : store row.1 with
      | some ts2 =>
        constructor
        · intro hin
          have hne : row.1 ≠ name := by
            intro he
            rw [he] at h2
            exact h2 (contains_of_mem hin)
          have hcnt : (log ++ [row.1]).count name = log.count name := by
            simp [List.count_append, List.count_singleton, hne]
          rw [(ih (dfs ++ [(row.1, ts2)]) (log ++ [row.1])).1
            (by rw [List.map_append]; exact List.mem_append.mpr (Or.inl hin)), hcnt]
        · intro hnin
          by_cases he : row.1 = name
          · subst he
            have hcnt : (log ++ [row.1]).count row.1 = log.count row.1 + 1 := by
              simp [List.count_append, List.count_singleton]
            rw [(ih (dfs ++ [(row.1, ts2)]) (log ++ [row.1])).1
              (by rw [List.map_append]; exact List.mem_append.mpr (Or.inr (by simp))),
              hcnt]
          · have hcnt : (log ++ [row.1]).count name = log.count name := by
              simp [List.count_append, List.count_singleton, he]
            have hnin2 : name ∉ (dfs ++ [(row.1, ts2)]).map Prod.fst := by
              rw [List.map_append]
              intro hmem
              rcases List.mem_append.mp hmem with hl | hr
              · exact hnin hl
              · simp at hr
                exact he hr.symm
            have hrec := (ih (dfs ++ [(row.1, ts2)]) (log ++ [row.1])).2 hnin2
            rw [hcnt] at hrec
            exact hrec
      | none =>
        by_cases he : row.1 = name
        · rw [he, hst] at hst2
          simp at hst2
        · have hcnt : (log ++ [row.1]).count name = log.count name := by
            simp [List.count_append, List.count_singleton, he]
          constructor
          · intro hin
            rw [(ih dfs (log ++ [row.1])).1 hin, hcnt]
          · intro hnin
            have hrec := (ih dfs (log ++ [row.1])).2 hnin
            rw [hcnt] at hrec
            exact hrec

/-- Claim C10: loading skips a weights row whose file is already
loaded, so the loaded keys are distinct and a file the store can read
is read at most once; the index build has no such guard, so every row
whose series is a column contributes its weighted term and its weight
once per occurrence, and a duplicated row is counted twice. -/
theorem C10_duplicate_rows :
    (∀ (dataDir : List String) (weights : List (String × ℚ))
        (store : String → Option TimeSeries),
        ((load_series_data dataDir weights store).1.map Prod.fst).Nodup
        ∧ (∀ (name : String) (ts : TimeSeries), store name = some ts →
            (load_series_data dataDir weights store).2.count name ≤ 1))
    ∧ (∀ (p : Panel) (e : String × ℚ) (rest : List (String × ℚ)) (d : ℕ),
        p.colNames.contains e.1 = true →
        (build_severity_index p (e :: rest)).total_weight
            = e.2 + (build_severity_index p rest).total_weight
        ∧ (build_severity_index p (e :: rest)).severity d
            = oadd (osmul e.2 (panelCell p e.1 d))
                ((build_severity_index p rest).severity d)
        ∧ (build_severity_index p (e :: e :: rest)).total_weight
            = e.2 + (e.2 + (build_severity_index p rest).total_weight)) := by
  constructor
  · intro dataDir weights store
    constructor
    · exact loadAux_keys_nodup dataDir store weights [] [] (by simp)
    · intro name ts hst
      have h := (loadAux_count dataDir store name ts hst weights [] []).2 (by simp)
      simpa using h
  · intro p e rest d hc
    exact ⟨build_total_cons p e rest hc,
      build_sev_cons p e rest d hc,
      by rw [build_total_cons p e (e :: rest) hc, build_total_cons p e rest hc]⟩

/-- Witness for C10: with a duplicated weights row the loaded keys are
distinct, the single readable file is read once, and the duplicated row
doubles its weight in the cumulative total. -/
theorem C10_duplicate_rows_witness :
    ((load_series_data ["data", "raw"] dupWeights dupStore).1.map Prod.fst).Nodup
    ∧ (load_series_data ["data", "raw"] dupWeights dupStore).2.count "A.csv" ≤ 1
    ∧ (build_severity_index w8Panel
        (("A.csv", (1 : ℚ) / 2) :: ("A.csv", (1 : ℚ) / 2) :: [])).total_weight
        = 1 / 2 + (1 / 2 + (build_severity_index w8Panel []).total_weight) := by
  refine ⟨(C10_duplicate_rows.1 ["data", "raw"] dupWeights dupStore).1,
    (C10_duplicate_rows.1 ["data", "raw"] dupWeights dupStore).2 "A.csv"
      ([(0, 10)] : List (ℕ × ℚ)) ?_,
    (C10_duplicate_rows.2 w8Panel ("A.csv", 1 / 2) [] 0 ?_).2.2⟩
  · simp [dupStore]
  · rfl

/-- Counterexample for C2 as stated: the name with a trailing newline is
accepted although it contains a character that is neither a word
character nor the dot of the extension, so acceptance is not limited to
names consisting solely of word characters followed by dot-csv. -/
theorem C2_counterexample :
    validate_filename ['a', '.', 'c', 's', 'v', '\n'] = true
    ∧ '\n' ∈ ['a', '.', 'c', 's', 'v', '\n']
    ∧ isWordChar '\n' = false
    ∧ '\n' ≠ '.' := by
  refine ⟨by decide, by decide, by decide, by decide⟩

end PCCpi
